import Mathlib

/-!
Shallow embedding of the plurr-d1 backend's core logic: the reaction
aggregator (`src/utils.ts`), the reaction toggle state machine
(`src/library/actions/image.ts`), the lobby read/delete actions
(`src/library/actions/lobby.ts`), and the join toggle
(`src/library/actions/user.ts`).  Database tables are modelled as lists of
row records kept in insertion order; selects are list filters, inserts
append, updates map, deletes filter.  Fallible actions return
`Except StatusError`, mirroring the `StatusError(message, statusCode)`
exceptions thrown by the source.
-/

namespace Plurr

/-- Row of the `Reactions` table (`lobby.schema.ts`). -/
structure ReactionRow where
  rid : String
  userId : String
  lobbyId : String
  imageId : String
  createdOn : String
  reaction : String
deriving DecidableEq, Repr

/-- Row of the `Images` table (`lobby.schema.ts`). -/
structure ImageRow where
  rid : String
  lobbyId : String
  uploadedOn : String
  uploaderId : String
  reactionString : String
deriving DecidableEq, Repr

/-- Row of the `Lobbies` table (`lobby.schema.ts`). -/
structure LobbyRow where
  rid : String
  lobbyCode : String
  createdOn : String
  firstUploadOn : Option String
  ownerId : String
  title : String
  backgroundColor : String
  viewersCanEdit : Bool
  isDraft : Bool
  images : List String
deriving DecidableEq, Repr

/-- Row of the `JoinedLobbies` table (`lobby.schema.ts`). -/
structure JoinedLobbyRow where
  rid : String
  lobbyId : String
  userId : String
  joinedOn : String
deriving DecidableEq, Repr

/-- The relational store: one list of rows per table, in insertion order. -/
structure DB where
  lobbies : List LobbyRow
  images : List ImageRow
  reactions : List ReactionRow
  joinedLobbies : List JoinedLobbyRow
deriving DecidableEq, Repr

/-- The `StatusError` class of `StatusError.ts`: a message plus the HTTP
status code that `getErrorResponse` in `utils.ts` sends back unchanged. -/
structure StatusError where
  message : String
  statusCode : Nat
deriving DecidableEq, Repr

/-- Loop body of `getReactionDisplayString` (`utils.ts` lines 93-101):
scan the reaction list, pushing each value not yet displayed and different
from `"like"`, stopping as soon as 4 values have been collected. -/
def displayLoop : List String → List String → List String
  | [], acc => acc
  | r :: rest, acc =>
    if acc.length < 4 then
      if r ∉ acc ∧ r ≠ "like" then displayLoop rest (acc ++ [r])
      else displayLoop rest acc
    else acc

/-- `getReactionDisplayString` from `utils.ts` lines 89-103: `"0"` for an
empty list, otherwise the count, a space, and the joined display values. -/
def getReactionDisplayString (reactions : List String) : String :=
  if reactions.length = 0 then "0"
  else toString reactions.length ++ " " ++ String.join (displayLoop reactions [])

/-- Spec-side description of the displayed symbols (§4.2 of the spec): all
distinct non-`"like"` values in first-seen order, later truncated to 4. -/
def firstSeenDistinctNonLike (reactions : List String) : List String :=
  reactions.foldl (fun acc r => if r ∉ acc ∧ r ≠ "like" then acc ++ [r] else acc) []

/-- Value returned by `handleImageReact`: the freshly persisted display
string and the caller's own resulting reaction (`none` after a delete). -/
structure ReactResult where
  updatedReactionString : String
  userReaction : Option String
deriving DecidableEq, Repr

/-- Reaction-table mutation of `handleImageReact`
(`actions/image.ts` lines 114-144): select the caller's rows for the
image; insert when none, delete the found row when the value repeats or
the new value is `"like"`, otherwise update the found row in place.
Returns the new table and the caller's resulting reaction value. -/
def toggleStep (rs : List ReactionRow) (imageId userId newReaction lobbyId newRowId now : String) :
    List ReactionRow × Option String :=
  match rs.filter (fun r => r.imageId == imageId && r.userId == userId) with
  | [] => (rs ++ [⟨newRowId, userId, lobbyId, imageId, now, newReaction⟩], some newReaction)
  | r :: _ =>
    if r.reaction == newReaction || newReaction == "like" then
      (rs.filter (fun x => !(x.rid == r.rid)), none)
    else
      (rs.map (fun x => if x.rid == r.rid then { x with reaction := newReaction } else x),
       some newReaction)

/-- `handleImageReact` from `actions/image.ts` lines 93-163.  `userId` and
`newReaction` are `Option` because the source guards against `undefined`
form fields; the fresh row id (`generateSecureId(10)`) and timestamp
(`getTimestamp()`) enter as parameters.  After the table mutation the
display string is recomputed over all rows of the image and persisted on
the image row. -/
def handleImageReact (imageId : String) (userId newReaction : Option String)
    (newRowId now : String) (db : DB) : Except StatusError (DB × ReactResult) :=
  match userId, newReaction with
  | some userId, some newReaction =>
    match db.images.find? (fun im => im.rid == imageId) with
    | none => .error ⟨"Image Not Found", 400⟩
    | some img =>
      let step := toggleStep db.reactions imageId userId newReaction img.lobbyId newRowId now
      let updatedReactionString := getReactionDisplayString
        ((step.1.filter (fun r => r.imageId == imageId)).map (fun r => r.reaction))
      let images' := db.images.map (fun im =>
        if im.rid == imageId then { im with reactionString := updatedReactionString } else im)
      .ok ({ db with images := images', reactions := step.1 },
        ⟨updatedReactionString, step.2⟩)
  | _, _ => .error ⟨"Missing Form Data.", 400⟩

/-- Rows of the `Reactions` table for one (imageId, userId) pair, in table
order: the select of `actions/image.ts` lines 114-118. -/
def reactionRowsFor (db : DB) (imageId userId : String) : List ReactionRow :=
  db.reactions.filter (fun r => r.imageId == imageId && r.userId == userId)

/-- Arguments of one `handleImageReact` call. -/
structure ReactCall where
  imageId : String
  userId : Option String
  newReaction : Option String
  newRowId : String
  now : String
deriving DecidableEq, Repr

/-- Run one `handleImageReact` call against the store; a thrown
`StatusError` leaves the store untouched. -/
def applyReactCall (c : ReactCall) (db : DB) : DB :=
  match handleImageReact c.imageId c.userId c.newReaction c.newRowId c.now db with
  | .ok (db', _) => db'
  | .error _ => db

/-- Run a sequence of `handleImageReact` calls left to right. -/
def applyReactCalls : List ReactCall → DB → DB
  | [], db => db
  | c :: cs, db => applyReactCalls cs (applyReactCall c db)

/-- Image row and store shared by the concrete witnesses below. -/
def exImgDb : DB := ⟨[], [⟨"i1", "L1", "t0", "alice", "0"⟩], [], []⟩

/-- Entry for one image inside a lobby response (`getLobbyEntry`). -/
structure ImageEntryOut where
  rid : String
  reactionString : Option String
  currentUserReaction : Option String
deriving DecidableEq, Repr

/-- Lobby response object built by `getLobbyEntry` (`actions/lobby.ts`
lines 22-79). -/
structure LobbyEntryOut where
  rid : String
  lobbyCode : String
  createdOn : String
  firstUploadOn : Option String
  isJoined : Bool
  ownerId : String
  title : String
  backgroundColor : String
  viewersCanEdit : Bool
  images : List ImageEntryOut
deriving DecidableEq, Repr

/-- `getLobbyEntry` from `actions/lobby.ts` lines 22-79: joins the lobby
row with its image rows, the requester's own reactions and join row; an
anonymous requester (falsy `currentUserId`) skips the reaction and join
lookups.  The row already stores `viewersCanEdit` as a boolean here. -/
def getLobbyEntry (lobbyRes : LobbyRow) (currentUserId : Option String) (db : DB) :
    LobbyEntryOut :=
  let imageResults := db.images.filter (fun img => img.lobbyId == lobbyRes.rid)
  let reactionResults : List ReactionRow := match currentUserId with
    | some uid => db.reactions.filter (fun r => r.lobbyId == lobbyRes.rid && r.userId == uid)
    | none => []
  let joinedResults : List JoinedLobbyRow := match currentUserId with
    | some uid => db.joinedLobbies.filter (fun j => j.lobbyId == lobbyRes.rid && j.userId == uid)
    | none => []
  let imageEntries := lobbyRes.images.map (fun imageId =>
    ({ rid := imageId,
       reactionString := (imageResults.find? (fun ir => ir.rid == imageId)).map
         (fun ir => ir.reactionString),
       currentUserReaction := (reactionResults.find? (fun r => r.imageId == imageId)).map
         (fun r => r.reaction) } : ImageEntryOut))
  { rid := lobbyRes.rid, lobbyCode := lobbyRes.lobbyCode, createdOn := lobbyRes.createdOn,
    firstUploadOn := lobbyRes.firstUploadOn, isJoined := !joinedResults.isEmpty,
    ownerId := lobbyRes.ownerId, title := lobbyRes.title,
    backgroundColor := lobbyRes.backgroundColor, viewersCanEdit := lobbyRes.viewersCanEdit,
    images := imageEntries }

/-- `getLobbyById` from `actions/lobby.ts` lines 107-123: select by id
together with the `isDraft = false` filter; 404 when nothing matches. -/
def getLobbyById (lobbyId : String) (currentUserId : Option String) (db : DB) :
    Except StatusError LobbyEntryOut :=
  match db.lobbies.filter (fun L => L.rid == lobbyId && L.isDraft == false) with
  | [] => .error ⟨"Lobby not found", 404⟩
  | L :: _ => .ok (getLobbyEntry L currentUserId db)

/-- `getLobbyByCode` from `actions/lobby.ts` lines 133-149: select by join
code together with the `isDraft = false` filter; 404 when nothing
matches. -/
def getLobbyByCode (lobbyCode : String) (currentUserId : Option String) (db : DB) :
    Except StatusError LobbyEntryOut :=
  match db.lobbies.filter (fun L => L.lobbyCode == lobbyCode && L.isDraft == false) with
  | [] => .error ⟨"Lobby not found", 404⟩
  | L :: _ => .ok (getLobbyEntry L currentUserId db)

/-- `getLobbyIdByCode` from `actions/lobby.ts` lines 88-97: select by join
code only — no draft filter and no requester identity in the signature. -/
def getLobbyIdByCode (lobbyCode : String) (db : DB) : Except StatusError String :=
  match db.lobbies.filter (fun L => L.lobbyCode == lobbyCode) with
  | [] => .error ⟨"Lobby not found", 404⟩
  | L :: _ => .ok L.rid

/-- R2 prefix listing test: an object is listed when its key begins with
the requested string. -/
def keyStartsWith (key pre : String) : Bool := pre.data.isPrefixOf key.data

/-- `deleteLobbyEntry` from `actions/lobby.ts` lines 284-310: owner check,
delete every listed blob object under the lobby-id prefix, then delete the
lobby row; the `onDelete: 'cascade'` references declared in
`lobby.schema.ts` (images.lobbyId, reactions.lobbyId, reactions.imageId,
joinedLobbies.lobbyId) make the relational store drop the dependent image,
reaction and joined-lobby rows together with it. -/
def deleteLobbyEntry (lobbyId currentUserId : String) (db : DB) (blobKeys : List String) :
    Except StatusError (DB × List String) :=
  match db.lobbies.filter (fun L => L.rid == lobbyId) with
  | [] => .error ⟨"Lobby Not Found", 400⟩
  | L :: _ =>
    if L.ownerId ≠ currentUserId then .error ⟨"Unauthorized", 403⟩
    else
      let blobKeys' := blobKeys.filter (fun k => !(keyStartsWith k lobbyId))
      let deletedImages := db.images.filter (fun img => img.lobbyId == lobbyId)
      let db' : DB :=
        { lobbies := db.lobbies.filter (fun l => !(l.rid == lobbyId)),
          images := db.images.filter (fun img => !(img.lobbyId == lobbyId)),
          reactions := db.reactions.filter (fun r =>
            !(r.lobbyId == lobbyId) &&
            !(deletedImages.any (fun img => img.rid == r.imageId))),
          joinedLobbies := db.joinedLobbies.filter (fun j => !(j.lobbyId == lobbyId)) }
      .ok (db', blobKeys')

/-- `joinLobby` from `actions/user.ts` lines 9-28: select the caller's
join rows for the lobby; insert one and return true when none, otherwise
delete the rows matching both `lobby_id` and `user_id` and return
false. -/
def joinLobby (lobbyId userId joinId now : String) (rows : List JoinedLobbyRow) :
    List JoinedLobbyRow × Bool :=
  match rows.filter (fun j => j.lobbyId == lobbyId && j.userId == userId) with
  | [] => (rows ++ [⟨joinId, lobbyId, userId, now⟩], true)
  | _ :: _ =>
    (rows.filter (fun j => !(j.lobbyId == lobbyId && j.userId == userId)), false)

/-- Join rows of one (lobby, user) pair, in table order. -/
def joinedRowsFor (rows : List JoinedLobbyRow) (lobbyId userId : String) :
    List JoinedLobbyRow :=
  rows.filter (fun j => j.lobbyId == lobbyId && j.userId == userId)

/-- Store with one draft lobby, used by the C7 and C10 theorems. -/
def exDraftDb : DB :=
  ⟨[⟨"L2", "code02", "t0", none, "alice", "title", "#fff", false, true, []⟩], [], [], []⟩

/-- Store with one published lobby, an image, a reaction and a join row,
used by the C8 witness. -/
def exDelDb : DB :=
  ⟨[⟨"L1", "code01", "t0", none, "alice", "title", "#fff", false, false, ["im1"]⟩],
   [⟨"im1", "L1", "t0", "alice", "0"⟩],
   [⟨"r1", "u2", "L1", "im1", "t1", "🔥"⟩],
   [⟨"j1", "L1", "u2", "t2"⟩]⟩

/-- One step of the first-seen fold only ever appends to its accumulator. -/
theorem foldl_firstSeen_append (rs : List String) :
    ∀ acc : List String, ∃ t,
      rs.foldl (fun acc r => if r ∉ acc ∧ r ≠ "like" then acc ++ [r] else acc) acc = acc ++ t := by
  induction rs with
  | nil => intro acc; exact ⟨[], by simp⟩
  | cons r rest ih =>
    intro acc
    by_cases h : r ∉ acc ∧ r ≠ "like"
    · obtain ⟨t, ht⟩ := ih (acc ++ [r])
      exact ⟨[r] ++ t, by simp [h, ht]⟩
    · obtain ⟨t, ht⟩ := ih acc
      exact ⟨t, by simp [h] at *; simpa [h] using ht⟩

/-- The source's early-exit loop computes the first 4 elements of the full
first-seen fold. -/
theorem displayLoop_eq_take (rs : List String) :
    ∀ acc : List String, acc.length ≤ 4 →
      displayLoop rs acc =
        (rs.foldl (fun acc r => if r ∉ acc ∧ r ≠ "like" then acc ++ [r] else acc) acc).take 4 := by
  induction rs with
  | nil =>
    intro acc hle
    simp [displayLoop, List.take_of_length_le hle]
  | cons r rest ih =>
    intro acc hle
    rcases Nat.lt_or_ge acc.length 4 with hlt | hge
    · by_cases h : r ∉ acc ∧ r ≠ "like"
      · have hlen : (acc ++ [r]).length ≤ 4 := by
          simp only [List.length_append, List.length_cons, List.length_nil]
          omega
        simp [displayLoop, hlt, h, ih (acc ++ [r]) hlen]
      · simp [displayLoop, hlt, h, ih acc hle]
    · have h4 : acc.length = 4 := le_antisymm hle hge
      have hnlt : ¬ acc.length < 4 := by omega
      obtain ⟨t, ht⟩ := foldl_firstSeen_append (r :: rest) acc
      have hstop : displayLoop (r :: rest) acc = acc := by
        simp [displayLoop, hnlt]
      rw [hstop, ht, ← h4, List.take_left]

/-- C2: for the empty list the aggregator returns exactly `"0"`; otherwise
the output is the total count of tokens (`"like"` included), a space, and
the concatenation of at most 4 distinct non-`"like"` tokens in first-seen
order. -/
theorem aggregator_count_and_symbols (rs : List String) :
    (rs = [] → getReactionDisplayString rs = "0") ∧
    (rs ≠ [] →
      getReactionDisplayString rs =
        toString rs.length ++ " " ++ String.join ((firstSeenDistinctNonLike rs).take 4)) ∧
    ((firstSeenDistinctNonLike rs).take 4).length ≤ 4 ∧
    "like" ∉ (firstSeenDistinctNonLike rs).take 4 := by
  refine ⟨fun h => by simp [h, getReactionDisplayString], fun h => ?_, ?_, ?_⟩
  · have hlen : rs.length ≠ 0 := by simpa using h
    rw [getReactionDisplayString, if_neg hlen,
      displayLoop_eq_take rs [] (by simp), firstSeenDistinctNonLike]
  · exact le_trans (List.length_take_le 4 _) (le_refl 4)
  · intro hmem
    have hmem' : "like" ∈ firstSeenDistinctNonLike rs := List.mem_of_mem_take hmem
    rw [firstSeenDistinctNonLike] at hmem'
    -- "like" is never inserted by the fold
    suffices hgen : ∀ (l : List String) (acc : List String), "like" ∉ acc →
        "like" ∉ l.foldl (fun acc r => if r ∉ acc ∧ r ≠ "like" then acc ++ [r] else acc) acc by
      exact hgen rs [] (by simp) hmem'
    intro l
    induction l with
    | nil => intro acc hacc; simpa using hacc
    | cons r rest ih =>
      intro acc hacc
      by_cases h : r ∉ acc ∧ r ≠ "like"
      · have : "like" ∉ acc ++ [r] := by
          simp only [List.mem_append, List.mem_singleton]
          rintro (h1 | h2)
          · exact hacc h1
          · exact h.2 h2.symm
        simpa [h] using ih (acc ++ [r]) this
      · simpa [h] using ih acc hacc

/-- C2 witness: concrete evaluation of both branches of the aggregator. -/
theorem aggregator_count_and_symbols_witness :
    getReactionDisplayString [] = "0" ∧
    getReactionDisplayString ["a", "like", "a", "b"] =
      toString (["a", "like", "a", "b"] : List String).length ++ " " ++
        String.join ((firstSeenDistinctNonLike ["a", "like", "a", "b"]).take 4) := by
  exact ⟨(aggregator_count_and_symbols []).1 rfl,
    (aggregator_count_and_symbols ["a", "like", "a", "b"]).2.1 (by decide)⟩

/-- C5 counterexample: the spec's example equation
`Aggregate(["like","like"]) == "2"` fails on the code, which returns
`"2 "` (the count is always followed by a space and the joined symbols). -/
theorem aggregator_examples_counterexample :
    getReactionDisplayString ["like", "like"] ≠ "2" ∧
    getReactionDisplayString ["like", "like"] = "2 " := by
  constructor <;> decide

/-- C5 amended: the aggregator satisfies the example equations once the
separating space of the output format `"<count> <symbols>"` is restored:
`Aggregate([]) == "0"`, `Aggregate(["like","like"]) == "2 "`,
`Aggregate(["🔥","🔥","💀","like"]) == "4 🔥💀"`, and
`Aggregate(["a","b","c","d","e"]) == "5 abcd"` (count 5, exactly the 4
first-seen distinct symbols). -/
theorem aggregator_examples_amended :
    getReactionDisplayString [] = "0" ∧
    getReactionDisplayString ["like", "like"] = "2 " ∧
    getReactionDisplayString ["🔥", "🔥", "💀", "like"] = "4 🔥💀" ∧
    getReactionDisplayString ["a", "b", "c", "d", "e"] = "5 abcd" := by
  refine ⟨by decide, by decide, by decide, by decide⟩

/-- Two filters of one list commute. -/
theorem filter_filter_comm {α : Type} (p q : α → Bool) (l : List α) :
    (l.filter p).filter q = (l.filter q).filter p := by
  induction l with
  | nil => rfl
  | cons a l ih => by_cases hp : p a <;> by_cases hq : q a <;> simp [hp, hq, ih]

/-- Filtering commutes with a map that does not change the predicate. -/
theorem filter_map_of_pred_inv {α : Type} (f : α → α) (p : α → Bool)
    (hf : ∀ a, p (f a) = p a) (l : List α) :
    (l.map f).filter p = (l.filter p).map f := by
  induction l with
  | nil => rfl
  | cons a l ih => by_cases hp : p a <;> simp [hp, hf, ih]

/-- When the caller has no reaction row, `toggleStep` inserts one. -/
theorem toggleStep_insert (rs : List ReactionRow) (i u v L nid now : String)
    (h : rs.filter (fun r => r.imageId == i && r.userId == u) = []) :
    toggleStep rs i u v L nid now = (rs ++ [⟨nid, u, L, i, now, v⟩], some v) := by
  simp [toggleStep, h]

/-- When a reaction row is found, `toggleStep` deletes it (same value or
`"like"` submitted) or updates it in place. -/
theorem toggleStep_found (rs : List ReactionRow) (i u v L nid now : String)
    (r : ReactionRow) (rest : List ReactionRow)
    (h : rs.filter (fun x => x.imageId == i && x.userId == u) = r :: rest) :
    toggleStep rs i u v L nid now =
      if r.reaction == v || v == "like" then
        (rs.filter (fun x => !(x.rid == r.rid)), none)
      else
        (rs.map (fun x => if x.rid == r.rid then { x with reaction := v } else x), some v) := by
  rw [toggleStep, h]

/-- The row-id delete and the in-place value update of `toggleStep`
preserve the (imageId, userId) fields of every row. -/
theorem updateRow_pred_inv (targetRid v i u : String) (a : ReactionRow) :
    (((if a.rid == targetRid then { a with reaction := v } else a) : ReactionRow).imageId == i &&
      ((if a.rid == targetRid then { a with reaction := v } else a) : ReactionRow).userId == u) =
    (a.imageId == i && a.userId == u) := by
  by_cases h : a.rid == targetRid <;> simp [h]

/-- C1: with the image present and at most one existing reaction row for
the (image, user) pair, `handleImageReact` succeeds and makes exactly the
claimed transition — insert when no row exists, delete when the value
repeats or `"like"` is submitted, in-place update (same row id) otherwise
— and the returned caller reaction is `none` exactly when the resulting
state is Unset and is the submitted value otherwise. -/
theorem react_toggle_transitions (db : DB) (i u v nid now : String) (img : ImageRow)
    (himg : db.images.find? (fun im => im.rid == i) = some img)
    (hone : (reactionRowsFor db i u).length ≤ 1) :
    (∃ p, handleImageReact i (some u) (some v) nid now db = .ok p) ∧
    ∀ db' res, handleImageReact i (some u) (some v) nid now db = .ok (db', res) →
      (reactionRowsFor db i u = [] →
        db'.reactions = db.reactions ++ [⟨nid, u, img.lobbyId, i, now, v⟩] ∧
        res.userReaction = some v) ∧
      (∀ r, reactionRowsFor db i u = [r] →
        ((v = r.reaction ∨ v = "like") →
          db'.reactions = db.reactions.filter (fun x => !(x.rid == r.rid)) ∧
          res.userReaction = none) ∧
        (v ≠ r.reaction → v ≠ "like" →
          db'.reactions = db.reactions.map (fun x =>
            if x.rid == r.rid then { x with reaction := v } else x) ∧
          res.userReaction = some v)) ∧
      (res.userReaction = none ↔ reactionRowsFor db' i u = []) ∧
      (∀ w, res.userReaction = some w → w = v) := by
  constructor
  · cases hok : handleImageReact i (some u) (some v) nid now db with
    | ok p => exact ⟨p, rfl⟩
    | error e =>
      simp only [handleImageReact, himg] at hok
      exact Except.noConfusion hok
  intro db' res hok
  simp only [handleImageReact, himg] at hok
  rw [Except.ok.injEq, Prod.mk.injEq] at hok
  obtain ⟨hdb, hres⟩ := hok
  subst hdb
  subst hres
  cases hcase : reactionRowsFor db i u with
  | nil =>
    have hcase' : db.reactions.filter (fun x => x.imageId == i && x.userId == u) = [] := hcase
    have hstep := toggleStep_insert db.reactions i u v img.lobbyId nid now hcase'
    refine ⟨fun _ => ⟨by simp [hstep], by simp [hstep]⟩, ?_, ?_, ?_⟩
    · intro r hr
      exact absurd hr.symm (List.cons_ne_nil r [])
    · constructor
      · intro h
        exfalso
        simp [hstep] at h
      · intro h
        exfalso
        simp only [reactionRowsFor, hstep] at h
        rw [List.filter_append, hcase'] at h
        simp at h
    · intro w hw
      simp only [hstep] at hw
      exact (Option.some.inj hw).symm
  | cons r rest =>
    have hrest : rest = [] := by
      rw [hcase] at hone
      simp only [List.length_cons] at hone
      exact List.length_eq_zero.mp (by omega)
    subst hrest
    have hcase' : db.reactions.filter (fun x => x.imageId == i && x.userId == u) = [r] := hcase
    have hstep := toggleStep_found db.reactions i u v img.lobbyId nid now r [] hcase'
    by_cases hb : (r.reaction == v || v == "like") = true
    · rw [if_pos hb] at hstep
      have hb' : r.reaction = v ∨ v = "like" := by simpa using hb
      refine ⟨?_, ?_, ?_, ?_⟩
      · intro h0
        exact absurd h0 (List.cons_ne_nil r [])
      · intro r' hr'
        obtain ⟨h1, -⟩ := List.cons.inj hr'
        subst h1
        refine ⟨fun _ => ⟨by simp [hstep], by simp [hstep]⟩, fun hne hnl => ?_⟩
        rcases hb' with h | h
        · exact absurd h.symm hne
        · exact absurd h hnl
      · constructor
        · intro _
          simp only [reactionRowsFor, hstep]
          rw [filter_filter_comm, hcase']
          simp
        · intro _
          simp [hstep]
      · intro w hw
        exfalso
        simp [hstep] at hw
    · rw [if_neg hb] at hstep
      have hb' : r.reaction ≠ v ∧ v ≠ "like" := by
        constructor
        · intro he
          exact hb (by simp [he])
        · intro he
          exact hb (by simp [he])
      refine ⟨?_, ?_, ?_, ?_⟩
      · intro h0
        exact absurd h0 (List.cons_ne_nil r [])
      · intro r' hr'
        obtain ⟨h1, -⟩ := List.cons.inj hr'
        subst h1
        refine ⟨fun habs => ?_, fun _ _ => ⟨by simp [hstep], by simp [hstep]⟩⟩
        rcases habs with h | h
        · exact absurd h.symm hb'.1
        · exact absurd h hb'.2
      · constructor
        · intro h
          exfalso
          simp [hstep] at h
        · intro habs
          exfalso
          simp only [reactionRowsFor, hstep] at habs
          rw [filter_map_of_pred_inv _ _ (updateRow_pred_inv r.rid v i u), hcase'] at habs
          simp at habs
      · intro w hw
        simp only [hstep] at hw
        exact (Option.some.inj hw).symm

/-- C1 witness: reacting with a fire emoji on a fresh image of `exImgDb`
inserts the row and returns the caller's reaction. -/
theorem react_toggle_transitions_witness :
    ∃ p, handleImageReact "i1" (some "u1") (some "🔥") "r1" "t1" exImgDb = .ok p := by
  obtain ⟨hex, hall⟩ :=
    react_toggle_transitions exImgDb "i1" "u1" "🔥" "r1" "t1" ⟨"i1", "L1", "t0", "alice", "0"⟩
      (by decide) (by decide)
  exact hex

/-- C3: after a successful `handleImageReact`, the persisted
`reactionString` of the image row equals the aggregator applied to the
reaction values of all reaction rows of that image in the new store — the
display string is recomputed and never left stale. -/
theorem react_displayString_invariant (db db' : DB) (i : String) (u v : Option String)
    (nid now : String) (res : ReactResult)
    (h : handleImageReact i u v nid now db = .ok (db', res)) :
    ∀ img ∈ db'.images, img.rid = i →
      img.reactionString =
        getReactionDisplayString
          ((db'.reactions.filter (fun r => r.imageId == i)).map (fun r => r.reaction)) := by
  cases u with
  | none => simp [handleImageReact] at h
  | some u =>
    cases v with
    | none => simp [handleImageReact] at h
    | some v =>
      cases himg : db.images.find? (fun im => im.rid == i) with
      | none => simp [handleImageReact, himg] at h
      | some img0 =>
        simp only [handleImageReact, himg] at h
        rw [Except.ok.injEq, Prod.mk.injEq] at h
        obtain ⟨hdb, hres⟩ := h
        subst hdb
        subst hres
        intro img hmem hrid
        simp only [List.mem_map] at hmem
        obtain ⟨im, him, hf⟩ := hmem
        by_cases h2 : (im.rid == i) = true
        · rw [← hf]
          simp [h2]
        · exfalso
          rw [← hf, if_neg h2] at hrid
          exact h2 (by simp [hrid])

/-- C3 witness: the invariant evaluated after one concrete reaction. -/
theorem react_displayString_invariant_witness :
    ∃ db' res, handleImageReact "i1" (some "u1") (some "🔥") "r1" "t1" exImgDb = .ok (db', res) ∧
      ∀ img ∈ db'.images, img.rid = "i1" →
        img.reactionString =
          getReactionDisplayString
            ((db'.reactions.filter (fun r => r.imageId == "i1")).map (fun r => r.reaction)) := by
  cases hok : handleImageReact "i1" (some "u1") (some "🔥") "r1" "t1" exImgDb with
  | error e =>
    have hok2 : (handleImageReact "i1" (some "u1") (some "🔥") "r1" "t1" exImgDb).isOk = true := by
      decide
    rw [hok] at hok2
    exact Bool.noConfusion hok2
  | ok p =>
    obtain ⟨db', res⟩ := p
    exact ⟨db', res, rfl,
      react_displayString_invariant exImgDb db' "i1" (some "u1") (some "🔥") "r1" "t1" res hok⟩

/-- One `handleImageReact` call keeps at most one reaction row per
(image, user) pair. -/
theorem applyReactCall_uniqueness (c : ReactCall) (db : DB) (i u : String)
    (h : (reactionRowsFor db i u).length ≤ 1) :
    (reactionRowsFor (applyReactCall c db) i u).length ≤ 1 := by
  rw [applyReactCall]
  cases hok : handleImageReact c.imageId c.userId c.newReaction c.newRowId c.now db with
  | error e => exact h
  | ok p =>
    obtain ⟨db', res⟩ := p
    show (reactionRowsFor db' i u).length ≤ 1
    cases hu : c.userId with
    | none => rw [hu] at hok; simp [handleImageReact] at hok
    | some uc =>
      cases hv : c.newReaction with
      | none => rw [hu, hv] at hok; simp [handleImageReact] at hok
      | some vc =>
        rw [hu, hv] at hok
        cases himg : db.images.find? (fun im => im.rid == c.imageId) with
        | none => simp [handleImageReact, himg] at hok
        | some img0 =>
          simp only [handleImageReact, himg] at hok
          rw [Except.ok.injEq, Prod.mk.injEq] at hok
          obtain ⟨hdb, -⟩ := hok
          rw [← hdb]
          simp only [reactionRowsFor]
          cases hcase : db.reactions.filter (fun x => x.imageId == c.imageId && x.userId == uc) with
          | nil =>
            have hstep := toggleStep_insert db.reactions c.imageId uc vc img0.lobbyId
              c.newRowId c.now hcase
            simp only [hstep]
            rw [List.filter_append]
            by_cases hpair : c.imageId = i ∧ uc = u
            · obtain ⟨hi, hu'⟩ := hpair
              subst hi
              subst hu'
              rw [hcase]
              simp only [List.nil_append]
              exact le_trans (List.length_filter_le _ _) (by simp)
            · have hsingle : List.filter (fun x => x.imageId == i && x.userId == u)
                  [(⟨c.newRowId, uc, img0.lobbyId, c.imageId, c.now, vc⟩ : ReactionRow)] = [] := by
                simp only [List.filter_cons, List.filter_nil, Bool.and_eq_true, beq_iff_eq]
                rw [if_neg hpair]
              rw [hsingle, List.append_nil]
              exact h
          | cons r rest =>
            have hstep := toggleStep_found db.reactions c.imageId uc vc img0.lobbyId
              c.newRowId c.now r rest hcase
            by_cases hbb : (r.reaction == vc || vc == "like") = true
            · rw [if_pos hbb] at hstep
              simp only [hstep]
              rw [filter_filter_comm]
              exact le_trans (List.length_filter_le _ _) h
            · rw [if_neg hbb] at hstep
              simp only [hstep]
              rw [filter_map_of_pred_inv _ _ (updateRow_pred_inv r.rid vc i u), List.length_map]
              exact h

/-- Sequences of `handleImageReact` calls preserve the at-most-one bound
on reaction rows of each (image, user) pair. -/
theorem applyReactCalls_uniqueness (cs : List ReactCall) :
    ∀ db : DB, ∀ i u : String, (reactionRowsFor db i u).length ≤ 1 →
      (reactionRowsFor (applyReactCalls cs db) i u).length ≤ 1 := by
  induction cs with
  | nil => intro db i u h; exact h
  | cons c cs ih =>
    intro db i u h
    exact ih (applyReactCall c db) i u (applyReactCall_uniqueness c db i u h)

/-- C4: starting from a store with no reaction row for the pair (i, u),
any finite sequence of sequential `handleImageReact` calls leaves at most
one reaction row for (i, u). -/
theorem react_uniqueness_invariant (db : DB) (i u : String)
    (h0 : reactionRowsFor db i u = []) (cs : List ReactCall) :
    (reactionRowsFor (applyReactCalls cs db) i u).length ≤ 1 :=
  applyReactCalls_uniqueness cs db i u (by simp [h0])

/-- C4 witness: two sequential toggles by one user on `exImgDb` leave at
most one reaction row for the pair. -/
theorem react_uniqueness_invariant_witness :
    reactionRowsFor exImgDb "i1" "u1" = [] ∧
    (reactionRowsFor (applyReactCalls
        [⟨"i1", some "u1", some "🔥", "r1", "t1"⟩, ⟨"i1", some "u1", some "💀", "r2", "t2"⟩]
        exImgDb) "i1" "u1").length ≤ 1 :=
  ⟨by decide, react_uniqueness_invariant exImgDb "i1" "u1" (by decide) _⟩

/-- C6 counterexample: on a store with no image row, `handleImageReact`
throws `StatusError('Image Not Found', 400)` — HTTP status 400, not the
404 the claim requires for a NotFound condition. -/
theorem react_unknown_image_counterexample :
    handleImageReact "ghost" (some "u1") (some "🔥") "r1" "t1" (⟨[], [], [], []⟩ : DB) =
      .error ⟨"Image Not Found", 400⟩ ∧ (400 : Nat) ≠ 404 := by
  exact ⟨rfl, by decide⟩

/-- C6 amended: for an imageId matching no Image row, `handleImageReact`
fails with the error message `"Image Not Found"` carrying HTTP status 400
(not 404), and the failed call mutates no row of the store. -/
theorem react_unknown_image_amended (db : DB) (i u v nid now : String)
    (h : db.images.find? (fun im => im.rid == i) = none) :
    handleImageReact i (some u) (some v) nid now db = .error ⟨"Image Not Found", 400⟩ ∧
    applyReactCall ⟨i, some u, some v, nid, now⟩ db = db := by
  have h1 : handleImageReact i (some u) (some v) nid now db =
      .error ⟨"Image Not Found", 400⟩ := by
    simp [handleImageReact, h]
  refine ⟨h1, ?_⟩
  rw [applyReactCall]
  simp only [h1]

/-- C6 witness: the amended behavior at a concrete empty store. -/
theorem react_unknown_image_amended_witness :
    handleImageReact "ghost" (some "u1") (some "🔥") "r1" "t1" (⟨[], [], [], []⟩ : DB) =
      .error ⟨"Image Not Found", 400⟩ ∧
    applyReactCall ⟨"ghost", some "u1", some "🔥", "r1", "t1"⟩ (⟨[], [], [], []⟩ : DB) =
      (⟨[], [], [], []⟩ : DB) :=
  react_unknown_image_amended ⟨[], [], [], []⟩ "ghost" "u1" "🔥" "r1" "t1" rfl

/-- A char list that extends a longer pattern also extends the shorter
front part of it. -/
theorem isPrefixOf_of_append {p : List Char} :
    ∀ (q k : List Char), (p ++ q).isPrefixOf k = true → p.isPrefixOf k = true := by
  induction p with
  | nil => intro q k h; simp [List.isPrefixOf]
  | cons a p ih =>
    intro q k h
    cases k with
    | nil => simp [List.isPrefixOf] at h
    | cons b k =>
      simp only [List.cons_append, List.isPrefixOf, Bool.and_eq_true] at h ⊢
      exact ⟨h.1, ih q k h.2⟩

/-- A key under the `"L/"` prefix is also under the bare `"L"` prefix that
the blob cleanup of `deleteLobbyEntry` lists and deletes. -/
theorem keyStartsWith_mono (k L : String) (h : keyStartsWith k (L ++ "/") = true) :
    keyStartsWith k L = true := by
  rw [keyStartsWith] at h ⊢
  have hdata : (L ++ "/").data = L.data ++ "/".data := rfl
  rw [hdata] at h
  exact isPrefixOf_of_append _ _ h

/-- Filtering a list by the key of one of its members returns exactly that
member when the keys are pairwise distinct. -/
theorem filter_eq_singleton_of_nodup_map {α β : Type} [BEq β] [LawfulBEq β] (f : α → β)
    (l : List α) (x : α) (hmem : x ∈ l) (hnd : (l.map f).Nodup) :
    l.filter (fun a => f a == f x) = [x] := by
  induction l with
  | nil => cases hmem
  | cons a l ih =>
    simp only [List.map_cons, List.nodup_cons] at hnd
    obtain ⟨hna, hnd2⟩ := hnd
    rcases List.mem_cons.mp hmem with rfl | hmem2
    · rw [List.filter_cons_of_pos (by simp)]
      have hrest : l.filter (fun b => f b == f x) = [] := by
        rw [List.filter_eq_nil_iff]
        intro b hb hfb
        exact hna (by
          rw [← (by simpa using hfb : f b = f x)]
          exact List.mem_map_of_mem f hb)
      rw [hrest]
    · have hne : (f a == f x) = false := by
        have : f a ≠ f x := by
          intro he
          exact hna (he ▸ List.mem_map_of_mem f hmem2)
        simpa using this
      rw [List.filter_cons_of_neg (by simp [hne])]
      exact ih hmem2 hnd2

/-- C7 counterexample: the owner of a draft lobby also receives the 404
`Lobby not found` error from both `getLobbyById` and `getLobbyByCode`, so
the claim's owner-succeeds half fails on the code. -/
theorem draft_visibility_counterexample :
    getLobbyById "L2" (some "alice") exDraftDb = .error ⟨"Lobby not found", 404⟩ ∧
    getLobbyByCode "code02" (some "alice") exDraftDb = .error ⟨"Lobby not found", 404⟩ := by
  constructor <;> rfl

/-- C7 amended: `getLobbyById` and `getLobbyByCode` fail with the 404
`Lobby not found` error on a draft lobby for every requester — anonymous,
non-owner and owner alike; the `isDraft = false` filter hides drafts from
both lookups unconditionally. -/
theorem draft_visibility_amended (db : DB) (L : LobbyRow) (req : Option String)
    (hmem : L ∈ db.lobbies) (hdraft : L.isDraft = true)
    (hids : (db.lobbies.map (fun l => l.rid)).Nodup)
    (hcodes : (db.lobbies.map (fun l => l.lobbyCode)).Nodup) :
    getLobbyById L.rid req db = .error ⟨"Lobby not found", 404⟩ ∧
    getLobbyByCode L.lobbyCode req db = .error ⟨"Lobby not found", 404⟩ := by
  have hinjId := List.inj_on_of_nodup_map hids
  have hinjCode := List.inj_on_of_nodup_map hcodes
  constructor
  · have hnil : db.lobbies.filter (fun l => l.rid == L.rid && l.isDraft == false) = [] := by
      rw [List.filter_eq_nil_iff]
      intro l hl
      by_cases hr : l.rid = L.rid
      · have hLL : l = L := hinjId hl hmem hr
        rw [hLL]
        simp [hdraft]
      · simp [hr]
    simp only [getLobbyById, hnil]
  · have hnil : db.lobbies.filter (fun l => l.lobbyCode == L.lobbyCode && l.isDraft == false)
        = [] := by
      rw [List.filter_eq_nil_iff]
      intro l hl
      by_cases hr : l.lobbyCode = L.lobbyCode
      · have hLL : l = L := hinjCode hl hmem hr
        rw [hLL]
        simp [hdraft]
      · simp [hr]
    simp only [getLobbyByCode, hnil]

/-- C7 witness for the amended claim: the concrete draft store. -/
theorem draft_visibility_amended_witness :
    getLobbyById "L2" (some "bob") exDraftDb = .error ⟨"Lobby not found", 404⟩ ∧
    getLobbyByCode "code02" (some "bob") exDraftDb = .error ⟨"Lobby not found", 404⟩ :=
  draft_visibility_amended exDraftDb
    ⟨"L2", "code02", "t0", none, "alice", "title", "#fff", false, true, []⟩
    (some "bob") (by decide) rfl (by decide) (by decide)

/-- C8: when `deleteLobbyEntry` succeeds, no image, reaction or
joined-lobby row referencing the lobby survives in the relational store,
and no blob object whose key starts with the `lobbyId/` prefix survives in
the blob store. -/
theorem deleteLobby_cascade (L req : String) (db : DB) (blobKeys : List String)
    (db' : DB) (blobKeys' : List String)
    (h : deleteLobbyEntry L req db blobKeys = .ok (db', blobKeys')) :
    (∀ img ∈ db'.images, img.lobbyId ≠ L) ∧
    (∀ r ∈ db'.reactions, r.lobbyId ≠ L) ∧
    (∀ j ∈ db'.joinedLobbies, j.lobbyId ≠ L) ∧
    (∀ k ∈ blobKeys', keyStartsWith k (L ++ "/") = false) := by
  cases hL : db.lobbies.filter (fun l => l.rid == L) with
  | nil =>
    simp only [deleteLobbyEntry, hL] at h
    exact Except.noConfusion h
  | cons L0 Ls =>
    simp only [deleteLobbyEntry, hL] at h
    by_cases hown : L0.ownerId ≠ req
    · rw [if_pos hown] at h
      exact Except.noConfusion h
    · rw [if_neg hown] at h
      rw [Except.ok.injEq, Prod.mk.injEq] at h
      obtain ⟨hdb, hblob⟩ := h
      subst hdb
      subst hblob
      refine ⟨?_, ?_, ?_, ?_⟩
      · intro img hmem2
        rw [List.mem_filter] at hmem2
        simpa using hmem2.2
      · intro r hmem2
        rw [List.mem_filter] at hmem2
        have h2 := hmem2.2
        simp only [Bool.and_eq_true] at h2
        simpa using h2.1
      · intro j hmem2
        rw [List.mem_filter] at hmem2
        simpa using hmem2.2
      · intro k hmem2
        rw [List.mem_filter] at hmem2
        have hk : keyStartsWith k L = false := by simpa using hmem2.2
        cases hkk : keyStartsWith k (L ++ "/") with
        | false => rfl
        | true =>
          rw [keyStartsWith_mono k L hkk] at hk
          exact Bool.noConfusion hk

/-- C8 witness: the cascade evaluated on the concrete store `exDelDb`. -/
theorem deleteLobby_cascade_witness :
    ∃ db' keys',
      deleteLobbyEntry "L1" "alice" exDelDb ["L1/im1.jpeg", "Z2/other.jpeg"] =
        .ok (db', keys') ∧
      (∀ img ∈ db'.images, img.lobbyId ≠ "L1") ∧
      (∀ r ∈ db'.reactions, r.lobbyId ≠ "L1") ∧
      (∀ j ∈ db'.joinedLobbies, j.lobbyId ≠ "L1") ∧
      (∀ k ∈ keys', keyStartsWith k ("L1" ++ "/") = false) := by
  cases hok : deleteLobbyEntry "L1" "alice" exDelDb ["L1/im1.jpeg", "Z2/other.jpeg"] with
  | error e =>
    have hok2 : (deleteLobbyEntry "L1" "alice" exDelDb
        ["L1/im1.jpeg", "Z2/other.jpeg"]).isOk = true := by decide
    rw [hok] at hok2
    exact Bool.noConfusion hok2
  | ok p =>
    obtain ⟨db', keys'⟩ := p
    exact ⟨db', keys', rfl,
      deleteLobby_cascade "L1" "alice" exDelDb ["L1/im1.jpeg", "Z2/other.jpeg"] db' keys' hok⟩

/-- C9: `joinLobby` inserts the caller's membership row and returns true
when none exists, otherwise deletes exactly the caller's own rows for the
lobby and returns false; the membership rows of every other (lobby, user)
pair are untouched either way. -/
theorem joinLobby_toggle_frame (rows : List JoinedLobbyRow) (L u jid now : String) :
    (joinedRowsFor rows L u = [] →
      joinLobby L u jid now rows = (rows ++ [⟨jid, L, u, now⟩], true)) ∧
    (joinedRowsFor rows L u ≠ [] →
      joinLobby L u jid now rows =
        (rows.filter (fun j => !(j.lobbyId == L && j.userId == u)), false)) ∧
    (∀ L2 u2, L2 ≠ L ∨ u2 ≠ u →
      joinedRowsFor (joinLobby L u jid now rows).1 L2 u2 = joinedRowsFor rows L2 u2) := by
  refine ⟨?_, ?_, ?_⟩
  · intro h0
    rw [joinedRowsFor] at h0
    simp [joinLobby, h0]
  · intro hne0
    cases hcase : rows.filter (fun j => j.lobbyId == L && j.userId == u) with
    | nil => exact absurd hcase hne0
    | cons r rest => simp [joinLobby, hcase]
  · intro L2 u2 hne
    cases hcase : rows.filter (fun j => j.lobbyId == L && j.userId == u) with
    | nil =>
      simp only [joinLobby, hcase]
      rw [joinedRowsFor, joinedRowsFor, List.filter_append]
      have hrow : List.filter (fun j => j.lobbyId == L2 && j.userId == u2)
          [(⟨jid, L, u, now⟩ : JoinedLobbyRow)] = [] := by
        simp only [List.filter_cons, List.filter_nil, Bool.and_eq_true, beq_iff_eq]
        rw [if_neg]
        rintro ⟨h1, h2⟩
        rcases hne with h | h
        · exact h h1.symm
        · exact h h2.symm
      rw [hrow, List.append_nil]
    | cons r rest =>
      simp only [joinLobby, hcase]
      rw [joinedRowsFor, joinedRowsFor, filter_filter_comm, List.filter_eq_self]
      intro j hj
      rw [List.mem_filter] at hj
      obtain ⟨-, hj2⟩ := hj
      simp only [Bool.and_eq_true, beq_iff_eq] at hj2
      rcases hne with h | h
      · simp [hj2.1, h]
      · simp [hj2.2, h]

/-- C9 witness: one join then a frame check on a different pair. -/
theorem joinLobby_toggle_frame_witness :
    joinLobby "L1" "u1" "j1" "t1" [] = ([⟨"j1", "L1", "u1", "t1"⟩], true) ∧
    joinedRowsFor (joinLobby "L1" "u1" "j1" "t1" []).1 "L9" "u9" =
      joinedRowsFor [] "L9" "u9" := by
  obtain ⟨h1, h2, h3⟩ := joinLobby_toggle_frame [] "L1" "u1" "j1" "t1"
  exact ⟨h1 (by decide), h3 "L9" "u9" (Or.inl (by decide))⟩

/-- C10: `getLobbyIdByCode` resolves any existing join code to the lobby
id with no draft filter and no requester identity in its signature: the
matching lobby's draft flag is irrelevant, so draft lobbies resolve for
any caller. -/
theorem lobbyIdByCode_ignores_draft (db : DB) (L : LobbyRow)
    (hmem : L ∈ db.lobbies)
    (hcodes : (db.lobbies.map (fun l => l.lobbyCode)).Nodup) :
    getLobbyIdByCode L.lobbyCode db = .ok L.rid := by
  have hsing := filter_eq_singleton_of_nodup_map (fun l => l.lobbyCode) db.lobbies L hmem hcodes
  simp only [getLobbyIdByCode, hsing]

/-- C10 witness: the draft lobby of `exDraftDb` resolves by code. -/
theorem lobbyIdByCode_ignores_draft_witness :
    getLobbyIdByCode "code02" exDraftDb = .ok "L2" :=
  lobbyIdByCode_ignores_draft exDraftDb
    ⟨"L2", "code02", "t0", none, "alice", "title", "#fff", false, true, []⟩
    (by decide) (by decide)

end Plurr

